import Mathlib

/-!
Shallow embedding of the csv-visualizer core (`src/app/visualize_data.py`)
and verification of its specification claims.

Modelling conventions:
* A cell of a numeric column is `Option ℚ`: `none` is a missing value (NaN),
  `some q` a present value.  Floating-point arithmetic of the source is
  modelled by exact rational arithmetic.
* `dropna` on a column is `List.filterMap id`.
* pandas `Series.quantile`/`median` use linear interpolation between closest
  ranks, embedded below as `quantileSorted` over the sorted values.
* The square root inside `Series.std` is the only non-rational operation of
  the statistics code; the embedding abstracts it as an explicit function
  parameter `sqrtQ` (the claims below do not depend on its value).
-/

namespace CSVVis

/-- The non-missing values of a column (`col_data = self.data[column].dropna()`). -/
def dropna (xs : List (Option ℚ)) : List ℚ :=
  xs.filterMap id

/-- Number of missing entries of a column (`self.data[column].isna().sum()`). -/
def missingCount (xs : List (Option ℚ)) : ℕ :=
  xs.countP (fun o => o.isNone)

/-- Minimum of a list of values (`col_data.min()`); `0` on the empty list,
which the source never queries. -/
def listMin : List ℚ → ℚ
  | [] => 0
  | x :: xs => xs.foldl min x

/-- Maximum of a list of values (`col_data.max()`). -/
def listMax : List ℚ → ℚ
  | [] => 0
  | x :: xs => xs.foldl max x

/-- Arithmetic mean (`col_data.mean()`). -/
def listMean (l : List ℚ) : ℚ :=
  l.sum / l.length

/-- The values sorted ascending, as pandas quantile does internally. -/
def sortedVals (l : List ℚ) : List ℚ :=
  l.insertionSort (· ≤ ·)

/-- Linear-interpolation quantile of an (already sorted) list `s` at level `q`:
with `n = s.length`, position `h = q·(n-1)`, lower index `i = ⌊h⌋`, the result
interpolates between `s[i]` and `s[i+1]`; at the top index it is the last
element.  This is pandas' default `interpolation='linear'`. -/
def quantileSorted (s : List ℚ) (q : ℚ) : ℚ :=
  let n := s.length
  let h : ℚ := q * ((n : ℚ) - 1)
  let i : ℕ := (⌊h⌋).toNat
  if i + 1 < n then
    s.getD i 0 + (h - (i : ℚ)) * (s.getD (i + 1) 0 - s.getD i 0)
  else
    s.getD (n - 1) 0

/-- `col_data.quantile(q)`: sort, then interpolate. -/
def quantile (l : List ℚ) (q : ℚ) : ℚ :=
  quantileSorted (sortedVals l) q

/-- Sample variance with denominator `n - 1` (`col_data.var()`, ddof = 1);
`0` when fewer than two values (pandas yields NaN there, a value no claim
depends on). -/
def sampleVar (l : List ℚ) : ℚ :=
  if l.length ≤ 1 then 0
  else (l.map (fun x => (x - listMean l) ^ 2)).sum / ((l.length : ℚ) - 1)

/-- The statistics record built by `calculate_statistics` (the optional
skew/kurtosis entries, produced only under `show_all_stats`, are omitted:
no claim concerns them). -/
structure ColumnStatistics where
  column : String
  count : ℕ
  missing : ℕ
  min : ℚ
  max : ℚ
  mean : ℚ
  median : ℚ
  q25 : ℚ
  q75 : ℚ
  std : ℚ
  range : ℚ
  iqr : ℚ
  cv : ℚ
  deriving Repr, DecidableEq

/-- `calculate_statistics(column)` (lines 102-134): drop missing values,
return `none` for an uncomputable column (the empty dict of the source),
otherwise the record of descriptive statistics.  `sqrtQ` abstracts the square
root inside `Series.std`. -/
def calculate_statistics (sqrtQ : ℚ → ℚ) (xs : List (Option ℚ))
    (name : String) : Option ColumnStatistics :=
  if (dropna xs).length = 0 then none
  else some
    { column := name
      count := (dropna xs).length
      missing := missingCount xs
      min := listMin (dropna xs)
      max := listMax (dropna xs)
      mean := listMean (dropna xs)
      median := quantile (dropna xs) (1/2)
      q25 := quantile (dropna xs) (1/4)
      q75 := quantile (dropna xs) (3/4)
      std := sqrtQ (sampleVar (dropna xs))
      range := listMax (dropna xs) - listMin (dropna xs)
      iqr := quantile (dropna xs) (3/4) - quantile (dropna xs) (1/4)
      cv := if listMean (dropna xs) ≠ 0
            then sqrtQ (sampleVar (dropna xs)) / listMean (dropna xs) else 0 }

/-- Non-missing count plus missing count recovers the column length. -/
theorem dropna_length_add_missingCount (xs : List (Option ℚ)) :
    (dropna xs).length + missingCount xs = xs.length := by
  induction xs with
  | nil => rfl
  | cons x xs ih =>
    cases x with
    | none =>
      simp [dropna, missingCount, List.countP_cons] at *
      omega
    | some v =>
      simp [dropna, missingCount, List.countP_cons] at *
      omega

end CSVVis

namespace CSVVis

/-- C2: every record produced by `calculate_statistics` satisfies
`range = max - min` and `iqr = q75 - q25` exactly. -/
theorem range_iqr_exact (sqrtQ : ℚ → ℚ) (xs : List (Option ℚ)) (name : String)
    (st : ColumnStatistics)
    (h : calculate_statistics sqrtQ xs name = some st) :
    st.range = st.max - st.min ∧ st.iqr = st.q75 - st.q25 := by
  unfold calculate_statistics at h
  split at h
  · exact absurd h (by simp)
  · cases h
    exact ⟨rfl, rfl⟩

/-- Witness for C2 at the concrete column `[some 1, some 2, none]`. -/
theorem range_iqr_exact_witness :
    ∃ st, calculate_statistics id [some 1, some 2, none] "x" = some st ∧
      st.range = st.max - st.min ∧ st.iqr = st.q75 - st.q25 :=
  ⟨_, rfl, range_iqr_exact id [some 1, some 2, none] "x" _ rfl⟩

/-- C7: `cv` is `std / mean` when the mean is nonzero and `0` when the mean is
zero, so the division never has a zero divisor. -/
theorem cv_guard (sqrtQ : ℚ → ℚ) (xs : List (Option ℚ)) (name : String)
    (st : ColumnStatistics)
    (h : calculate_statistics sqrtQ xs name = some st) :
    (st.mean ≠ 0 → st.cv = st.std / st.mean) ∧ (st.mean = 0 → st.cv = 0) := by
  unfold calculate_statistics at h
  split at h
  · exact absurd h (by simp)
  · cases h
    constructor
    · intro hm
      simp only [hm, if_true, ne_eq, not_false_iff, if_pos hm]
    · intro hm
      simp only [ne_eq, hm, not_true, if_neg, ite_eq_right_iff]
      intro hc
      exact absurd hm hc

/-- Witness for C7 at the concrete column `[some 1, some 3]`. -/
theorem cv_guard_witness :
    ∃ st, calculate_statistics id [some 1, some 3] "x" = some st ∧
      (st.mean ≠ 0 → st.cv = st.std / st.mean) ∧ (st.mean = 0 → st.cv = 0) :=
  ⟨_, rfl, cv_guard id [some 1, some 3] "x" _ rfl⟩

/-- A fold of `min` never exceeds its initial accumulator. -/
theorem foldl_min_le_init (l : List ℚ) (a : ℚ) : l.foldl min a ≤ a := by
  induction l generalizing a with
  | nil => exact le_refl a
  | cons b l ih =>
    exact le_trans (ih (min a b)) (min_le_left a b)

/-- A fold of `min` is below every list element. -/
theorem foldl_min_le_mem (l : List ℚ) (a : ℚ) (y : ℚ) (hy : y ∈ l) :
    l.foldl min a ≤ y := by
  induction l generalizing a with
  | nil => cases hy
  | cons b l ih =>
    rcases List.mem_cons.mp hy with rfl | hmem
    · exact le_trans (foldl_min_le_init l (min a y)) (min_le_right a y)
    · exact ih (min a b) hmem

/-- A fold of `max` dominates its initial accumulator. -/
theorem le_foldl_max_init (l : List ℚ) (a : ℚ) : a ≤ l.foldl max a := by
  induction l generalizing a with
  | nil => exact le_refl a
  | cons b l ih =>
    exact le_trans (le_max_left a b) (ih (max a b))

/-- A fold of `max` dominates every list element. -/
theorem mem_le_foldl_max (l : List ℚ) (a : ℚ) (y : ℚ) (hy : y ∈ l) :
    y ≤ l.foldl max a := by
  induction l generalizing a with
  | nil => cases hy
  | cons b l ih =>
    rcases List.mem_cons.mp hy with rfl | hmem
    · exact le_trans (le_max_right a y) (le_foldl_max_init l (max a y))
    · exact ih (max a b) hmem

/-- `listMin` is a lower bound of the list. -/
theorem listMin_le_mem (l : List ℚ) (y : ℚ) (hy : y ∈ l) : listMin l ≤ y := by
  cases l with
  | nil => cases hy
  | cons x xs =>
    rcases List.mem_cons.mp hy with rfl | hmem
    · exact foldl_min_le_init xs y
    · exact foldl_min_le_mem xs x y hmem

/-- `listMax` is an upper bound of the list. -/
theorem mem_le_listMax (l : List ℚ) (y : ℚ) (hy : y ∈ l) : y ≤ listMax l := by
  cases l with
  | nil => cases hy
  | cons x xs =>
    rcases List.mem_cons.mp hy with rfl | hmem
    · exact le_foldl_max_init xs y
    · exact mem_le_foldl_max xs x y hmem

/-- `getD` with an in-range index is `get`. -/
theorem getD_eq_get (l : List ℚ) : ∀ (i : ℕ) (h : i < l.length),
    l.getD i 0 = l.get ⟨i, h⟩ := by
  induction l with
  | nil => intro i h; simp at h
  | cons x xs ih =>
    intro i h
    cases i with
    | zero => rfl
    | succ j =>
      have hj : j < xs.length := by simpa using h
      simpa [List.getD_cons_succ] using ih j hj

/-- An in-range `getD` value is a member of the list. -/
theorem getD_mem (l : List ℚ) (i : ℕ) (h : i < l.length) : l.getD i 0 ∈ l := by
  rw [getD_eq_get l i h]
  exact l.get_mem _ _

/-- Entries of a sorted list are monotone in the index (via `getD`). -/
theorem sorted_getD_mono (s : List ℚ) (hs : s.Sorted (· ≤ ·)) (i j : ℕ)
    (hij : i ≤ j) (hj : j < s.length) : s.getD i 0 ≤ s.getD j 0 := by
  have hi : i < s.length := lt_of_le_of_lt hij hj
  rw [getD_eq_get s i hi, getD_eq_get s j hj]
  exact hs.rel_get_of_le (show (⟨i, hi⟩ : Fin s.length) ≤ ⟨j, hj⟩ from hij)

/-- Unfolding equation for `quantileSorted`. -/
theorem quantileSorted_def (s : List ℚ) (q : ℚ) :
    quantileSorted s q =
      if (⌊q * ((s.length : ℚ) - 1)⌋).toNat + 1 < s.length then
        s.getD (⌊q * ((s.length : ℚ) - 1)⌋).toNat 0
          + (q * ((s.length : ℚ) - 1) - (((⌊q * ((s.length : ℚ) - 1)⌋).toNat : ℕ) : ℚ))
            * (s.getD ((⌊q * ((s.length : ℚ) - 1)⌋).toNat + 1) 0
               - s.getD (⌊q * ((s.length : ℚ) - 1)⌋).toNat 0)
      else s.getD (s.length - 1) 0 := rfl

/-- Any lower bound of a sorted nonempty list bounds its quantile from below. -/
theorem quantileSorted_ge (s : List ℚ) (hs : s.Sorted (· ≤ ·))
    (hn : s.length ≠ 0) (a : ℚ) (ha : ∀ y ∈ s, a ≤ y) (q : ℚ) (hq0 : 0 ≤ q) :
    a ≤ quantileSorted s q := by
  rw [quantileSorted_def]
  have hn1 : 1 ≤ s.length := Nat.one_le_iff_ne_zero.mpr hn
  have hnn : (0 : ℚ) ≤ (s.length : ℚ) - 1 := by
    have : (1 : ℚ) ≤ (s.length : ℚ) := by exact_mod_cast hn1
    linarith
  have hh0 : (0 : ℚ) ≤ q * ((s.length : ℚ) - 1) := mul_nonneg hq0 hnn
  split
  · next hlt =>
    have hi : (⌊q * ((s.length : ℚ) - 1)⌋).toNat < s.length := by omega
    have hmem : s.getD (⌊q * ((s.length : ℚ) - 1)⌋).toNat 0 ∈ s := getD_mem s _ hi
    have h1 : a ≤ s.getD (⌊q * ((s.length : ℚ) - 1)⌋).toNat 0 := ha _ hmem
    have hsort : s.getD (⌊q * ((s.length : ℚ) - 1)⌋).toNat 0
        ≤ s.getD ((⌊q * ((s.length : ℚ) - 1)⌋).toNat + 1) 0 :=
      sorted_getD_mono s hs _ _ (Nat.le_succ _) hlt
    have hicast : (((⌊q * ((s.length : ℚ) - 1)⌋).toNat : ℕ) : ℚ)
        = ((⌊q * ((s.length : ℚ) - 1)⌋ : ℤ) : ℚ) := by
      have := Int.toNat_of_nonneg (Int.floor_nonneg.mpr hh0)
      exact_mod_cast congrArg (fun z : ℤ => (z : ℚ)) this
    have hge : (((⌊q * ((s.length : ℚ) - 1)⌋).toNat : ℕ) : ℚ)
        ≤ q * ((s.length : ℚ) - 1) := by
      rw [hicast]; exact Int.floor_le _
    have hprod : 0 ≤ (q * ((s.length : ℚ) - 1)
          - (((⌊q * ((s.length : ℚ) - 1)⌋).toNat : ℕ) : ℚ))
        * (s.getD ((⌊q * ((s.length : ℚ) - 1)⌋).toNat + 1) 0
           - s.getD (⌊q * ((s.length : ℚ) - 1)⌋).toNat 0) :=
      mul_nonneg (by linarith) (by linarith)
    linarith
  · next hge =>
    exact ha _ (getD_mem s _ (by omega))

/-- Any upper bound of a sorted nonempty list bounds its quantile from above. -/
theorem quantileSorted_le (s : List ℚ) (hs : s.Sorted (· ≤ ·))
    (hn : s.length ≠ 0) (b : ℚ) (hb : ∀ y ∈ s, y ≤ b) (q : ℚ) (hq0 : 0 ≤ q) :
    quantileSorted s q ≤ b := by
  rw [quantileSorted_def]
  have hn1 : 1 ≤ s.length := Nat.one_le_iff_ne_zero.mpr hn
  have hnn : (0 : ℚ) ≤ (s.length : ℚ) - 1 := by
    have : (1 : ℚ) ≤ (s.length : ℚ) := by exact_mod_cast hn1
    linarith
  have hh0 : (0 : ℚ) ≤ q * ((s.length : ℚ) - 1) := mul_nonneg hq0 hnn
  split
  · next hlt =>
    have hmem1 : s.getD ((⌊q * ((s.length : ℚ) - 1)⌋).toNat + 1) 0 ∈ s :=
      getD_mem s _ hlt
    have h1 : s.getD ((⌊q * ((s.length : ℚ) - 1)⌋).toNat + 1) 0 ≤ b := hb _ hmem1
    have hsort : s.getD (⌊q * ((s.length : ℚ) - 1)⌋).toNat 0
        ≤ s.getD ((⌊q * ((s.length : ℚ) - 1)⌋).toNat + 1) 0 :=
      sorted_getD_mono s hs _ _ (Nat.le_succ _) hlt
    have hicast : (((⌊q * ((s.length : ℚ) - 1)⌋).toNat : ℕ) : ℚ)
        = ((⌊q * ((s.length : ℚ) - 1)⌋ : ℤ) : ℚ) := by
      have := Int.toNat_of_nonneg (Int.floor_nonneg.mpr hh0)
      exact_mod_cast congrArg (fun z : ℤ => (z : ℚ)) this
    have hlt1 : q * ((s.length : ℚ) - 1)
        < (((⌊q * ((s.length : ℚ) - 1)⌋).toNat : ℕ) : ℚ) + 1 := by
      rw [hicast]
      exact Int.lt_floor_add_one _
    have hprod : 0 ≤ (1 - (q * ((s.length : ℚ) - 1)
          - (((⌊q * ((s.length : ℚ) - 1)⌋).toNat : ℕ) : ℚ)))
        * (s.getD ((⌊q * ((s.length : ℚ) - 1)⌋).toNat + 1) 0
           - s.getD (⌊q * ((s.length : ℚ) - 1)⌋).toNat 0) :=
      mul_nonneg (by linarith) (by linarith)
    nlinarith [hprod, h1]
  · next hge =>
    exact hb _ (getD_mem s _ (by omega))

/-- Linear-interpolation quantiles of a sorted list are monotone in the level. -/
theorem quantileSorted_mono (s : List ℚ) (hs : s.Sorted (· ≤ ·))
    (q r : ℚ) (hq0 : 0 ≤ q) (hqr : q ≤ r) (hr1 : r ≤ 1) :
    quantileSorted s q ≤ quantileSorted s r := by
  rcases Nat.eq_zero_or_pos s.length with hn | hn
  · rw [quantileSorted_def, quantileSorted_def, hn]
    simp
  · have hnn : (0 : ℚ) ≤ (s.length : ℚ) - 1 := by
      have : (1 : ℚ) ≤ (s.length : ℚ) := by exact_mod_cast hn
      linarith
    have hh0 : (0 : ℚ) ≤ q * ((s.length : ℚ) - 1) := mul_nonneg hq0 hnn
    have hr0 : (0 : ℚ) ≤ r := le_trans hq0 hqr
    have hh0r : (0 : ℚ) ≤ r * ((s.length : ℚ) - 1) := mul_nonneg hr0 hnn
    have hhle : q * ((s.length : ℚ) - 1) ≤ r * ((s.length : ℚ) - 1) :=
      mul_le_mul_of_nonneg_right hqr hnn
    have hhtop : r * ((s.length : ℚ) - 1) ≤ (s.length : ℚ) - 1 :=
      mul_le_of_le_one_left hnn hr1
    have hfle : ⌊q * ((s.length : ℚ) - 1)⌋ ≤ ⌊r * ((s.length : ℚ) - 1)⌋ :=
      Int.floor_le_floor hhle
    have hile : (⌊q * ((s.length : ℚ) - 1)⌋).toNat
        ≤ (⌊r * ((s.length : ℚ) - 1)⌋).toNat := Int.toNat_le_toNat hfle
    have hicastq : (((⌊q * ((s.length : ℚ) - 1)⌋).toNat : ℕ) : ℚ)
        = ((⌊q * ((s.length : ℚ) - 1)⌋ : ℤ) : ℚ) := by
      have := Int.toNat_of_nonneg (Int.floor_nonneg.mpr hh0)
      exact_mod_cast congrArg (fun z : ℤ => (z : ℚ)) this
    have hicastr : (((⌊r * ((s.length : ℚ) - 1)⌋).toNat : ℕ) : ℚ)
        = ((⌊r * ((s.length : ℚ) - 1)⌋ : ℤ) : ℚ) := by
      have := Int.toNat_of_nonneg (Int.floor_nonneg.mpr hh0r)
      exact_mod_cast congrArg (fun z : ℤ => (z : ℚ)) this
    have hqfl : (((⌊q * ((s.length : ℚ) - 1)⌋).toNat : ℕ) : ℚ)
        ≤ q * ((s.length : ℚ) - 1) := by rw [hicastq]; exact Int.floor_le _
    have hqfu : q * ((s.length : ℚ) - 1)
        < (((⌊q * ((s.length : ℚ) - 1)⌋).toNat : ℕ) : ℚ) + 1 := by
      rw [hicastq]; exact Int.lt_floor_add_one _
    have hrfl : (((⌊r * ((s.length : ℚ) - 1)⌋).toNat : ℕ) : ℚ)
        ≤ r * ((s.length : ℚ) - 1) := by rw [hicastr]; exact Int.floor_le _
    rw [quantileSorted_def, quantileSorted_def]
    split
    · next hltq =>
      split
      · next hltr =>
        by_cases hii : (⌊q * ((s.length : ℚ) - 1)⌋).toNat
            = (⌊r * ((s.length : ℚ) - 1)⌋).toNat
        · rw [hii]
          have hsort : s.getD (⌊r * ((s.length : ℚ) - 1)⌋).toNat 0
              ≤ s.getD ((⌊r * ((s.length : ℚ) - 1)⌋).toNat + 1) 0 :=
            sorted_getD_mono s hs _ _ (Nat.le_succ _) hltr
          have hgam : (q * ((s.length : ℚ) - 1)
                - (((⌊r * ((s.length : ℚ) - 1)⌋).toNat : ℕ) : ℚ))
              ≤ (r * ((s.length : ℚ) - 1)
                - (((⌊r * ((s.length : ℚ) - 1)⌋).toNat : ℕ) : ℚ)) := by linarith
          nlinarith [mul_le_mul_of_nonneg_right hgam (by linarith :
            (0:ℚ) ≤ s.getD ((⌊r * ((s.length : ℚ) - 1)⌋).toNat + 1) 0
              - s.getD (⌊r * ((s.length : ℚ) - 1)⌋).toNat 0)]
        · have hij : (⌊q * ((s.length : ℚ) - 1)⌋).toNat
              < (⌊r * ((s.length : ℚ) - 1)⌋).toNat := lt_of_le_of_ne hile hii
          have hsortq : s.getD (⌊q * ((s.length : ℚ) - 1)⌋).toNat 0
              ≤ s.getD ((⌊q * ((s.length : ℚ) - 1)⌋).toNat + 1) 0 :=
            sorted_getD_mono s hs _ _ (Nat.le_succ _) hltq
          have hmid : s.getD ((⌊q * ((s.length : ℚ) - 1)⌋).toNat + 1) 0
              ≤ s.getD (⌊r * ((s.length : ℚ) - 1)⌋).toNat 0 :=
            sorted_getD_mono s hs _ _ hij (by omega)
          have hsortr : s.getD (⌊r * ((s.length : ℚ) - 1)⌋).toNat 0
              ≤ s.getD ((⌊r * ((s.length : ℚ) - 1)⌋).toNat + 1) 0 :=
            sorted_getD_mono s hs _ _ (Nat.le_succ _) hltr
          have hup : s.getD (⌊q * ((s.length : ℚ) - 1)⌋).toNat 0
                + (q * ((s.length : ℚ) - 1)
                  - (((⌊q * ((s.length : ℚ) - 1)⌋).toNat : ℕ) : ℚ))
                * (s.getD ((⌊q * ((s.length : ℚ) - 1)⌋).toNat + 1) 0
                   - s.getD (⌊q * ((s.length : ℚ) - 1)⌋).toNat 0)
              ≤ s.getD ((⌊q * ((s.length : ℚ) - 1)⌋).toNat + 1) 0 := by
            nlinarith [mul_nonneg (by linarith : (0:ℚ) ≤ 1
                - (q * ((s.length : ℚ) - 1)
                  - (((⌊q * ((s.length : ℚ) - 1)⌋).toNat : ℕ) : ℚ)))
              (by linarith : (0:ℚ) ≤ s.getD ((⌊q * ((s.length : ℚ) - 1)⌋).toNat + 1) 0
                - s.getD (⌊q * ((s.length : ℚ) - 1)⌋).toNat 0)]
          have hlow : s.getD (⌊r * ((s.length : ℚ) - 1)⌋).toNat 0
              ≤ s.getD (⌊r * ((s.length : ℚ) - 1)⌋).toNat 0
                + (r * ((s.length : ℚ) - 1)
                  - (((⌊r * ((s.length : ℚ) - 1)⌋).toNat : ℕ) : ℚ))
                * (s.getD ((⌊r * ((s.length : ℚ) - 1)⌋).toNat + 1) 0
                   - s.getD (⌊r * ((s.length : ℚ) - 1)⌋).toNat 0) := by
            nlinarith [mul_nonneg (by linarith : (0:ℚ) ≤ r * ((s.length : ℚ) - 1)
                  - (((⌊r * ((s.length : ℚ) - 1)⌋).toNat : ℕ) : ℚ))
              (by linarith : (0:ℚ) ≤ s.getD ((⌊r * ((s.length : ℚ) - 1)⌋).toNat + 1) 0
                - s.getD (⌊r * ((s.length : ℚ) - 1)⌋).toNat 0)]
          linarith
      · next hger =>
        have hsortq : s.getD (⌊q * ((s.length : ℚ) - 1)⌋).toNat 0
            ≤ s.getD ((⌊q * ((s.length : ℚ) - 1)⌋).toNat + 1) 0 :=
          sorted_getD_mono s hs _ _ (Nat.le_succ _) hltq
        have hup : s.getD (⌊q * ((s.length : ℚ) - 1)⌋).toNat 0
              + (q * ((s.length : ℚ) - 1)
                - (((⌊q * ((s.length : ℚ) - 1)⌋).toNat : ℕ) : ℚ))
              * (s.getD ((⌊q * ((s.length : ℚ) - 1)⌋).toNat + 1) 0
                 - s.getD (⌊q * ((s.length : ℚ) - 1)⌋).toNat 0)
            ≤ s.getD ((⌊q * ((s.length : ℚ) - 1)⌋).toNat + 1) 0 := by
          nlinarith [mul_nonneg (by linarith : (0:ℚ) ≤ 1
              - (q * ((s.length : ℚ) - 1)
                - (((⌊q * ((s.length : ℚ) - 1)⌋).toNat : ℕ) : ℚ)))
            (by linarith : (0:ℚ) ≤ s.getD ((⌊q * ((s.length : ℚ) - 1)⌋).toNat + 1) 0
              - s.getD (⌊q * ((s.length : ℚ) - 1)⌋).toNat 0)]
        have hend : s.getD ((⌊q * ((s.length : ℚ) - 1)⌋).toNat + 1) 0
            ≤ s.getD (s.length - 1) 0 :=
          sorted_getD_mono s hs _ _ (by omega) (by omega)
        linarith
    · next hgeq =>
      split
      · next hltr =>
        exact absurd hltr (by omega)
      · next hger =>
        exact le_refl _

end CSVVis

namespace CSVVis

/-- C1: in every record produced by `calculate_statistics`, the order
statistics are monotone: `min ≤ q25 ≤ median ≤ q75 ≤ max`. -/
theorem quantile_order (sqrtQ : ℚ → ℚ) (xs : List (Option ℚ)) (name : String)
    (st : ColumnStatistics)
    (h : calculate_statistics sqrtQ xs name = some st) :
    st.min ≤ st.q25 ∧ st.q25 ≤ st.median ∧ st.median ≤ st.q75 ∧
      st.q75 ≤ st.max := by
  unfold calculate_statistics at h
  split at h
  · exact absurd h (by simp)
  · next hne =>
    cases h
    have hs : (sortedVals (dropna xs)).Sorted (· ≤ ·) :=
      List.sorted_insertionSort (· ≤ ·) (dropna xs)
    have hperm : List.Perm (sortedVals (dropna xs)) (dropna xs) :=
      List.perm_insertionSort (· ≤ ·) (dropna xs)
    have hlen : (sortedVals (dropna xs)).length ≠ 0 := by
      rw [hperm.length_eq]; exact hne
    refine ⟨?_, ?_, ?_, ?_⟩
    · exact quantileSorted_ge _ hs hlen _
        (fun y hy => listMin_le_mem _ y (hperm.mem_iff.mp hy)) _ (by norm_num)
    · exact quantileSorted_mono _ hs _ _ (by norm_num) (by norm_num) (by norm_num)
    · exact quantileSorted_mono _ hs _ _ (by norm_num) (by norm_num) (by norm_num)
    · exact quantileSorted_le _ hs hlen _
        (fun y hy => mem_le_listMax _ y (hperm.mem_iff.mp hy)) _ (by norm_num)

/-- Witness for C1 at the concrete column `[some 3, some 1, none, some 2]`. -/
theorem quantile_order_witness :
    ∃ st, calculate_statistics id [some 3, some 1, none, some 2] "x" = some st ∧
      st.min ≤ st.q25 ∧ st.q25 ≤ st.median ∧ st.median ≤ st.q75 ∧
        st.q75 ≤ st.max :=
  ⟨_, rfl, quantile_order id [some 3, some 1, none, some 2] "x" _ rfl⟩

/-- Lower outer edge used by `np.histogram`: the data minimum, moved down by
`1/2` when the data range is degenerate (numpy's `_get_outer_edges`). -/
def histLo (l : List ℚ) : ℚ :=
  if listMin l = listMax l then listMin l - 1/2 else listMin l

/-- Upper outer edge used by `np.histogram`, symmetric to `histLo`. -/
def histHi (l : List ℚ) : ℚ :=
  if listMin l = listMax l then listMax l + 1/2 else listMax l

/-- Bin index of a value under equal-width binning over `[lo, hi]`:
half-open bins except the final bin, which is closed (the clamp to
`bins - 1` puts `hi` itself in the last bin). -/
def binIdx (lo hi : ℚ) (bins : ℕ) (v : ℚ) : ℕ :=
  min (⌊(v - lo) * (bins : ℚ) / (hi - lo)⌋).toNat (bins - 1)

/-- `np.histogram(col_data, bins=self.bins)` counts (requires `bins ≥ 1`;
the renders below model numpy's exception for `bins = 0` separately). -/
def histogram (l : List ℚ) (bins : ℕ) : List ℕ :=
  (List.range bins).map
    (fun i => l.countP (fun v => binIdx (histLo l) (histHi l) bins v == i))

/-- `hist.max()` over the (nonnegative) bin counts. -/
def maxNat (l : List ℕ) : ℕ :=
  l.foldr max 0

/-- The 9-symbol ramp `" ▁▂▃▄▅▆▇█"` of the inline render. -/
def asciiChars : List Char :=
  [' ', '▁', '▂', '▃', '▄', '▅', '▆', '▇', '█']

/-- Symbol for one bin of the sparkline: level `⌊count/max·8⌋` clamped to 8
(`ascii_chars[min(level, len(ascii_chars)-1)]`). -/
def levelChar (maxc c : ℕ) : Char :=
  asciiChars.getD (min (c * 8 / maxc) 8) ' '

/-- `create_inline_histogram(column)` (lines 175-197).  `bins = 0` models
`np.histogram` raising, caught by the source's `except` as `"[Error]"`. -/
def create_inline_histogram (xs : List (Option ℚ)) (bins : ℕ) : String :=
  if (dropna xs).length < 2 then "[Insufficient data]"
  else if bins = 0 then "[Error]"
  else if (histogram (dropna xs) bins).sum = 0 then "[No data]"
  else if maxNat (histogram (dropna xs) bins) = 0 then "[ ]"
  else String.mk ((histogram (dropna xs) bins).map
    (levelChar (maxNat (histogram (dropna xs) bins))))

/-- Scaled bar length of the wide render:
`(hist / max_count * histogram_width).astype(int)`, i.e. the *truncation*
`⌊count/max·width⌋` (not a rounding). -/
def scaledLen (width maxc c : ℕ) : ℕ :=
  (⌊(c : ℚ) / (maxc : ℚ) * (width : ℚ)⌋).toNat

/-- One bar of the wide render: `bar_length` solid blocks, a minimal marker
when the scaled length vanished but the count is positive, else a blank. -/
def wideBar (width maxc c : ℕ) : String :=
  if 0 < scaledLen width maxc c then
    String.mk (List.replicate (scaledLen width maxc c) '█')
  else if 0 < c then "▁"
  else " "

/-- Edge `i` of the histogram bins (`bin_edges[i]`). -/
def binEdge (lo hi : ℚ) (bins i : ℕ) : ℚ :=
  lo + (i : ℚ) * (hi - lo) / (bins : ℚ)

/-- Fixed two-decimal rendering of a rational, for the bin labels
(`f"{edge:.2f}"`; the label text plays no role in any claim). -/
def formatF2 (q : ℚ) : String :=
  (if round (q * 100) < 0 then "-" else "")
    ++ toString ((round (q * 100)).natAbs / 100) ++ "."
    ++ (if (round (q * 100)).natAbs % 100 < 10 then "0" else "")
    ++ toString ((round (q * 100)).natAbs % 100)

/-- Label of bin `i` (`f"{bin_edges[i]:.2f}-{bin_edges[i+1]:.2f}"`). -/
def binLabel (lo hi : ℚ) (bins i : ℕ) : String :=
  formatF2 (binEdge lo hi bins i) ++ "-" ++ formatF2 (binEdge lo hi bins (i + 1))

/-- Left-justify to a minimum width (`f"{bin_label:15}"`). -/
def padTo (s : String) (n : ℕ) : String :=
  s ++ String.mk (List.replicate (n - s.length) ' ')

/-- Python's `"\n".join`. -/
def joinNL : List String → String
  | [] => ""
  | [l] => l
  | l :: l₂ :: ls => l ++ "\n" ++ joinNL (l₂ :: ls)

/-- One full line of the wide render: padded label, separator, bar. -/
def wideLine (l : List ℚ) (bins width i : ℕ) : String :=
  padTo (binLabel (histLo l) (histHi l) bins i) 15 ++ " |"
    ++ wideBar width (maxNat (histogram l bins)) ((histogram l bins).getD i 0)

/-- `create_ascii_histogram(column)` (lines 136-173). -/
def create_ascii_histogram (xs : List (Option ℚ)) (bins width : ℕ) : String :=
  if (dropna xs).length < 2 then "[Insufficient data]"
  else if bins = 0 then "[Error creating histogram]"
  else if (histogram (dropna xs) bins).sum = 0 then "[No data in bins]"
  else if maxNat (histogram (dropna xs) bins) = 0 then "[Empty histogram]"
  else joinNL ((List.range bins).map (wideLine (dropna xs) bins width))

/-- Sum of a map distributes over pointwise addition of the mapped functions. -/
theorem sum_map_add {α : Type} (l : List α) (f g : α → ℕ) :
    (l.map (fun x => f x + g x)).sum = (l.map f).sum + (l.map g).sum := by
  induction l with
  | nil => rfl
  | cons x l ih => simp [ih]; omega

/-- Summing the indicator of one index over `range B` gives `1`. -/
theorem sum_map_indicator (B k : ℕ) (hk : k < B) :
    ((List.range B).map (fun i => if k = i then 1 else 0)).sum = 1 := by
  induction B with
  | zero => omega
  | succ n ih =>
    rw [List.range_succ, List.map_append, List.sum_append]
    rcases Nat.lt_or_ge k n with hkn | hkn
    · rw [ih hkn]
      simp [Nat.ne_of_lt hkn]
    · have hkeq : k = n := by omega
      subst hkeq
      have hz : ((List.range k).map (fun i => if k = i then 1 else 0)).sum = 0 := by
        apply List.sum_eq_zero
        intro x hx
        rcases List.mem_map.mp hx with ⟨i, hi, hix⟩
        have : k ≠ i := by
          have := List.mem_range.mp hi
          omega
        simpa [this] using hix.symm
      simp [hz]

/-- Every value lands in a bin below `bins`. -/
theorem binIdx_lt (lo hi : ℚ) (bins : ℕ) (hb : 1 ≤ bins) (v : ℚ) :
    binIdx lo hi bins v < bins := by
  unfold binIdx
  omega

/-- Counting occurrences of each index class over `range B` partitions a list
whose classifier stays below `B`. -/
theorem countP_partition {α : Type} (f : α → ℕ) (B : ℕ) (l : List α)
    (hf : ∀ v ∈ l, f v < B) :
    ((List.range B).map (fun i => l.countP (fun v => f v == i))).sum
      = l.length := by
  induction l with
  | nil => simp
  | cons v l ih =>
    have hcong : (List.range B).map
        (fun i => (v :: l).countP (fun w => f w == i))
        = (List.range B).map
        (fun i => l.countP (fun w => f w == i)
          + if f v = i then 1 else 0) := by
      apply List.map_congr_left
      intro i _
      rw [List.countP_cons]
      by_cases hbi : f v = i
      · simp [hbi]
      · simp [hbi]
    rw [hcong, sum_map_add, ih (fun w hw => hf w (List.mem_cons_of_mem v hw)),
      sum_map_indicator B (f v) (hf v (List.mem_cons_self v l))]
    simp

/-- The bin counts of `np.histogram` sum to the number of values. -/
theorem histogram_sum (l : List ℚ) (bins : ℕ) (hb : 1 ≤ bins) :
    (histogram l bins).sum = l.length :=
  countP_partition _ bins l
    (fun v _ => binIdx_lt (histLo l) (histHi l) bins hb v)

/-- A list of naturals with nonzero sum has a nonzero maximum. -/
theorem maxNat_ne_zero_of_sum_ne_zero (l : List ℕ) (h : l.sum ≠ 0) :
    maxNat l ≠ 0 := by
  induction l with
  | nil => exact absurd rfl h
  | cons x l ih =>
    simp only [List.sum_cons] at h
    show max x (l.foldr max 0) ≠ 0
    by_cases hx : x = 0
    · subst hx
      have : l.sum ≠ 0 := by omega
      have := ih this
      simpa [maxNat] using this
    · have : x ≤ max x (l.foldr max 0) := Nat.le_max_left _ _
      omega

/-- There are exactly `bins` bin counts. -/
theorem histogram_length (l : List ℚ) (bins : ℕ) :
    (histogram l bins).length = bins := by
  simp [histogram]

/-- String concatenation concatenates the character data. -/
theorem data_append (s t : String) : (s ++ t).data = s.data ++ t.data := by
  cases s
  cases t
  rfl

/-- No index into the 9-symbol ramp yields a bracket character. -/
theorem ramp_getD_ne_bracket (k : ℕ) (hk : k ≤ 8) :
    asciiChars.getD k ' ' ≠ '[' := by
  interval_cases k <;> decide

/-- The sparkline body of the inline render is never the insufficient-data
sentinel: all its characters come from the block ramp. -/
theorem sparkline_ne_sentinel (hist : List ℕ) (maxc : ℕ) :
    String.mk (hist.map (levelChar maxc)) ≠ "[Insufficient data]" := by
  intro h
  have hdata : hist.map (levelChar maxc) = "[Insufficient data]".data :=
    congrArg String.data h
  have hmem : '[' ∈ hist.map (levelChar maxc) := by
    rw [hdata]; decide
  rcases List.mem_map.mp hmem with ⟨c, _, hc⟩
  have hne : levelChar maxc c ≠ '[' :=
    ramp_getD_ne_bracket (min (c * 8 / maxc) 8) (Nat.min_le_right _ _)
  exact hne hc

/-- A character of the first line survives into the joined multi-line text. -/
theorem joinNL_mem_head (c : Char) (l : String) (ls : List String)
    (hc : c ∈ l.data) : c ∈ (joinNL (l :: ls)).data := by
  cases ls with
  | nil => exact hc
  | cons l₂ ls =>
    show c ∈ (l ++ "\n" ++ joinNL (l₂ :: ls)).data
    rw [data_append, data_append]
    exact List.mem_append_left _ (List.mem_append_left _ hc)

/-- Every line of the wide render contains the bar separator `|`. -/
theorem pipe_mem_wideLine (l : List ℚ) (bins width i : ℕ) :
    '|' ∈ (wideLine l bins width i).data := by
  unfold wideLine
  rw [data_append]
  apply List.mem_append_left
  rw [data_append]
  apply List.mem_append_right
  decide

/-- The joined line block of the wide render is never the insufficient-data
sentinel: it contains a `|`, the sentinel does not. -/
theorem wide_body_ne_sentinel (l : List ℚ) (bins width : ℕ) (hb : 1 ≤ bins) :
    joinNL ((List.range bins).map (wideLine l bins width))
      ≠ "[Insufficient data]" := by
  intro h
  obtain ⟨k, rfl⟩ : ∃ k, bins = k + 1 := ⟨bins - 1, by omega⟩
  rw [List.range_succ_eq_map, List.map_cons] at h
  have hmem : '|' ∈ (joinNL (wideLine l (k + 1) width 0
      :: ((List.range k).map Nat.succ).map (wideLine l (k + 1) width))).data :=
    joinNL_mem_head '|' _ _ (pipe_mem_wideLine l (k + 1) width 0)
  rw [h] at hmem
  exact absurd hmem (by decide)

end CSVVis

namespace CSVVis

/-- C4 (amended): with a positive requested bin count, the inline render of a
column with at least 2 non-missing values is a string of exactly `bins`
characters. -/
theorem inline_length_eq_bins (xs : List (Option ℚ)) (bins : ℕ)
    (h2 : 2 ≤ (dropna xs).length) (hb : 1 ≤ bins) :
    (create_inline_histogram xs bins).length = bins := by
  unfold create_inline_histogram
  rw [if_neg (by omega), if_neg (by omega)]
  have hsum : (histogram (dropna xs) bins).sum ≠ 0 := by
    rw [histogram_sum _ _ hb]; omega
  rw [if_neg hsum, if_neg (maxNat_ne_zero_of_sum_ne_zero _ hsum)]
  show ((histogram (dropna xs) bins).map _).length = bins
  rw [List.length_map, histogram_length]

/-- C4 counterexample: at requested bin count `0`, `np.histogram` raises and
the render returns `"[Error]"` (of length 7), so the output length is not the
requested bin count even though the column has 2 non-missing values. -/
theorem inline_length_cex :
    2 ≤ (dropna [some (3:ℚ), some 7]).length ∧
    create_inline_histogram [some (3:ℚ), some 7] 0 = "[Error]" ∧
    (create_inline_histogram [some (3:ℚ), some 7] 0).length ≠ 0 :=
  ⟨by decide, rfl, by decide⟩

/-- Witness for C4 at the column `[some 1, some 2, some 5]` with 3 bins. -/
theorem inline_length_witness :
    2 ≤ (dropna [some (1:ℚ), some 2, some 5]).length ∧ 1 ≤ 3 ∧
    (create_inline_histogram [some (1:ℚ), some 2, some 5] 3).length = 3 :=
  ⟨by decide, by decide,
    inline_length_eq_bins [some (1:ℚ), some 2, some 5] 3 (by decide) (by decide)⟩

/-- C8 (amended): with a positive bin count, both renders return the
`"[Insufficient data]"` sentinel exactly when the column has fewer than 2
non-missing values, and a column with exactly 2 non-missing values renders a
normal histogram (the sparkline body resp. the joined bin lines). -/
theorem sentinel_iff (xs : List (Option ℚ)) (bins width : ℕ) (hb : 1 ≤ bins) :
    (create_inline_histogram xs bins = "[Insufficient data]"
      ↔ (dropna xs).length < 2)
    ∧ (create_ascii_histogram xs bins width = "[Insufficient data]"
      ↔ (dropna xs).length < 2)
    ∧ ((dropna xs).length = 2 →
        create_inline_histogram xs bins
          = String.mk ((histogram (dropna xs) bins).map
              (levelChar (maxNat (histogram (dropna xs) bins))))
        ∧ create_ascii_histogram xs bins width
          = joinNL ((List.range bins).map (wideLine (dropna xs) bins width))) := by
  refine ⟨⟨?_, ?_⟩, ⟨?_, ?_⟩, ?_⟩
  · intro h
    by_cases hlen : (dropna xs).length < 2
    · exact hlen
    · exfalso
      unfold create_inline_histogram at h
      rw [if_neg hlen, if_neg (by omega)] at h
      have hsum : (histogram (dropna xs) bins).sum ≠ 0 := by
        rw [histogram_sum _ _ hb]; omega
      rw [if_neg hsum, if_neg (maxNat_ne_zero_of_sum_ne_zero _ hsum)] at h
      exact sparkline_ne_sentinel _ _ h
  · intro h
    unfold create_inline_histogram
    rw [if_pos h]
  · intro h
    by_cases hlen : (dropna xs).length < 2
    · exact hlen
    · exfalso
      unfold create_ascii_histogram at h
      rw [if_neg hlen, if_neg (by omega)] at h
      have hsum : (histogram (dropna xs) bins).sum ≠ 0 := by
        rw [histogram_sum _ _ hb]; omega
      rw [if_neg hsum, if_neg (maxNat_ne_zero_of_sum_ne_zero _ hsum)] at h
      exact wide_body_ne_sentinel _ _ _ hb h
  · intro h
    unfold create_ascii_histogram
    rw [if_pos h]
  · intro hlen2
    have hlen : ¬ (dropna xs).length < 2 := by omega
    have hsum : (histogram (dropna xs) bins).sum ≠ 0 := by
      rw [histogram_sum _ _ hb]; omega
    constructor
    · unfold create_inline_histogram
      rw [if_neg hlen, if_neg (by omega), if_neg hsum,
        if_neg (maxNat_ne_zero_of_sum_ne_zero _ hsum)]
    · unfold create_ascii_histogram
      rw [if_neg hlen, if_neg (by omega), if_neg hsum,
        if_neg (maxNat_ne_zero_of_sum_ne_zero _ hsum)]

/-- C8 counterexample: the spec's two-value column `[1.0, 2.0]` does not
render a normal histogram when the bin count is `0`: `np.histogram` raises
and both renders return error sentinels. -/
theorem sentinel_cex :
    (dropna [some (1:ℚ), some 2]).length = 2 ∧
    create_inline_histogram [some (1:ℚ), some 2] 0 = "[Error]" ∧
    create_ascii_histogram [some (1:ℚ), some 2] 0 20 = "[Error creating histogram]" :=
  ⟨by decide, rfl, rfl⟩

/-- Witness for C8 at `bins = 10`, `width = 20`. -/
theorem sentinel_iff_witness :
    (1 : ℕ) ≤ 10 ∧
    ((create_inline_histogram [some (1:ℚ)] 10 = "[Insufficient data]"
        ↔ (dropna [some (1:ℚ)]).length < 2)
      ∧ (create_ascii_histogram [some (1:ℚ)] 10 20 = "[Insufficient data]"
        ↔ (dropna [some (1:ℚ)]).length < 2)
      ∧ ((dropna [some (1:ℚ)]).length = 2 →
          create_inline_histogram [some (1:ℚ)] 10
            = String.mk ((histogram (dropna [some (1:ℚ)]) 10).map
                (levelChar (maxNat (histogram (dropna [some (1:ℚ)]) 10))))
          ∧ create_ascii_histogram [some (1:ℚ)] 10 20
            = joinNL ((List.range 10).map (wideLine (dropna [some (1:ℚ)]) 10 20)))) :=
  ⟨by decide, sentinel_iff [some (1:ℚ)] 10 20 (by decide)⟩

/-- C6 (amended): in the wide render each bin `i` shows
`⌊count_i / max_count · width⌋` solid blocks (integer truncation, not
rounding); a single `▁` marker when that truncation is `0` but the count is
positive; a blank when the count is `0`. -/
theorem wide_bar_formula (xs : List (Option ℚ)) (bins width : ℕ)
    (h2 : 2 ≤ (dropna xs).length) (hb : 1 ≤ bins) :
    create_ascii_histogram xs bins width
      = joinNL ((List.range bins).map (wideLine (dropna xs) bins width))
    ∧ ∀ i, i < bins →
      (0 < scaledLen width (maxNat (histogram (dropna xs) bins))
            ((histogram (dropna xs) bins).getD i 0) →
        wideBar width (maxNat (histogram (dropna xs) bins))
            ((histogram (dropna xs) bins).getD i 0)
          = String.mk (List.replicate
              (scaledLen width (maxNat (histogram (dropna xs) bins))
                ((histogram (dropna xs) bins).getD i 0)) '█'))
      ∧ (scaledLen width (maxNat (histogram (dropna xs) bins))
            ((histogram (dropna xs) bins).getD i 0) = 0 →
          0 < (histogram (dropna xs) bins).getD i 0 →
          wideBar width (maxNat (histogram (dropna xs) bins))
            ((histogram (dropna xs) bins).getD i 0) = "▁")
      ∧ ((histogram (dropna xs) bins).getD i 0 = 0 →
          wideBar width (maxNat (histogram (dropna xs) bins))
            ((histogram (dropna xs) bins).getD i 0) = " ") := by
  constructor
  · have hsum : (histogram (dropna xs) bins).sum ≠ 0 := by
      rw [histogram_sum _ _ hb]; omega
    unfold create_ascii_histogram
    rw [if_neg (by omega), if_neg (by omega), if_neg hsum,
      if_neg (maxNat_ne_zero_of_sum_ne_zero _ hsum)]
  · intro i _
    refine ⟨?_, ?_, ?_⟩
    · intro hpos
      unfold wideBar
      rw [if_pos hpos]
    · intro hz hc
      unfold wideBar
      rw [if_neg (by omega), if_pos hc]
    · intro hc0
      unfold wideBar
      rw [hc0]
      have hsz : scaledLen width (maxNat (histogram (dropna xs) bins)) 0 = 0 := by
        simp [scaledLen]
      rw [if_neg (by omega), if_neg (by omega)]

/-- The bin classifier on the counterexample data: value `1` lands in bin 0. -/
theorem binIdx_cex_one : binIdx 1 2 2 1 = 0 := by
  unfold binIdx
  norm_num

/-- The bin classifier on the counterexample data: value `2` lands in bin 1. -/
theorem binIdx_cex_two : binIdx 1 2 2 2 = 1 := by
  unfold binIdx
  norm_num

/-- Bin counts of the counterexample column. -/
theorem histogram_cex :
    histogram [(1:ℚ), 1, 1, 2, 2, 2, 2] 2 = [3, 4] := by
  have hlo : histLo [(1:ℚ), 1, 1, 2, 2, 2, 2] = 1 := by
    norm_num [histLo, listMin, listMax, min_def, max_def]
  have hhi : histHi [(1:ℚ), 1, 1, 2, 2, 2, 2] = 2 := by
    norm_num [histHi, listMin, listMax, min_def, max_def]
  unfold histogram
  rw [hlo, hhi]
  simp [List.range_succ, List.countP_cons, binIdx_cex_one, binIdx_cex_two]

/-- Scaled length of the counterexample's bin 0: `⌊3/4·2⌋ = 1`. -/
theorem scaledLen_cex : scaledLen 2 4 3 = 1 := by
  have hfl : ⌊((3:ℕ) : ℚ) / ((4:ℕ) : ℚ) * ((2:ℕ) : ℚ)⌋ = 1 := by
    push_cast
    norm_num [Int.floor_eq_iff]
  show (⌊((3:ℕ) : ℚ) / ((4:ℕ) : ℚ) * ((2:ℕ) : ℚ)⌋).toNat = 1
  rw [hfl]
  rfl

/-- Scaled length of the counterexample's bin 1: `⌊4/4·2⌋ = 2`. -/
theorem scaledLen_cex_top : scaledLen 2 4 4 = 2 := by
  have hfl : ⌊((4:ℕ) : ℚ) / ((4:ℕ) : ℚ) * ((2:ℕ) : ℚ)⌋ = 2 := by
    push_cast
    norm_num
  show (⌊((4:ℕ) : ℚ) / ((4:ℕ) : ℚ) * ((2:ℕ) : ℚ)⌋).toNat = 2
  rw [hfl]
  rfl

/-- Bar of the counterexample's bin 0: a single block. -/
theorem wideBar_cex : wideBar 2 4 3 = "█" := by
  unfold wideBar
  rw [scaledLen_cex]
  decide

/-- Bar of the counterexample's bin 1: two blocks. -/
theorem wideBar_cex_top : wideBar 2 4 4 = "██" := by
  unfold wideBar
  rw [scaledLen_cex_top]
  decide

/-- Two-decimal labels of the counterexample's bin edges. -/
theorem formatF2_cex :
    formatF2 1 = "1.00" ∧ formatF2 (3/2) = "1.50" ∧ formatF2 2 = "2.00" := by
  have h1 : round ((1:ℚ) * 100) = 100 := by rw [round_eq]; norm_num [Int.floor_eq_iff]
  have h2 : round ((3:ℚ)/2 * 100) = 150 := by rw [round_eq]; norm_num [Int.floor_eq_iff]
  have h3 : round ((2:ℚ) * 100) = 200 := by rw [round_eq]; norm_num [Int.floor_eq_iff]
  refine ⟨?_, ?_, ?_⟩
  · unfold formatF2; rw [h1]; decide
  · unfold formatF2; rw [h2]; decide
  · unfold formatF2; rw [h3]; decide

/-- C6 counterexample: the column `[1,1,1,2,2,2,2]` with 2 bins and width 2
has bin counts `[3,4]`; the code renders bin 0 as one block
(`⌊3/4·2⌋ = ⌊1.5⌋ = 1`), while the claimed `round(3/4·2) = 2`. -/
theorem wide_round_cex :
    histogram (dropna [some (1:ℚ), some 1, some 1, some 2, some 2, some 2, some 2]) 2
      = [3, 4]
    ∧ maxNat [3, 4] = 4
    ∧ wideBar 2 4 3 = "█"
    ∧ ("█" : String).length = 1
    ∧ round ((3 : ℚ) / 4 * 2) = 2
    ∧ (1 : ℕ) ≠ 2
    ∧ create_ascii_histogram
        [some (1:ℚ), some 1, some 1, some 2, some 2, some 2, some 2] 2 2
      = "1.00-1.50       |█\n1.50-2.00       |██" := by
  have hdrop : dropna [some (1:ℚ), some 1, some 1, some 2, some 2, some 2, some 2]
      = [(1:ℚ), 1, 1, 2, 2, 2, 2] := rfl
  have hlo : histLo [(1:ℚ), 1, 1, 2, 2, 2, 2] = 1 := by
    norm_num [histLo, listMin, listMax, min_def, max_def]
  have hhi : histHi [(1:ℚ), 1, 1, 2, 2, 2, 2] = 2 := by
    norm_num [histHi, listMin, listMax, min_def, max_def]
  have he0 : binEdge 1 2 2 0 = 1 := by norm_num [binEdge]
  have he1 : binEdge 1 2 2 1 = 3/2 := by norm_num [binEdge]
  have he2 : binEdge 1 2 2 2 = 2 := by norm_num [binEdge]
  obtain ⟨hf1, hf15, hf2⟩ := formatF2_cex
  refine ⟨by rw [hdrop]; exact histogram_cex, by decide, wideBar_cex, by decide,
    by rw [round_eq]; norm_num [Int.floor_eq_iff], by decide, ?_⟩
  unfold create_ascii_histogram
  rw [hdrop, histogram_cex]
  rw [if_neg (by decide), if_neg (by decide), if_neg (by decide), if_neg (by decide)]
  show joinNL [wideLine [(1:ℚ), 1, 1, 2, 2, 2, 2] 2 2 0,
    wideLine [(1:ℚ), 1, 1, 2, 2, 2, 2] 2 2 1] = _
  unfold wideLine binLabel
  rw [hlo, hhi, he0, he1, he2, hf1, hf15, hf2, histogram_cex]
  rw [show maxNat [3, 4] = 4 from by decide,
    show List.getD [3, 4] 0 0 = 3 from rfl, show List.getD [3, 4] 1 0 = 4 from rfl,
    wideBar_cex, wideBar_cex_top]
  decide

/-- Witness for C6 on the column `[some 1, some 2, some 2]` with 2 bins. -/
theorem wide_bar_formula_witness :
    2 ≤ (dropna [some (1:ℚ), some 2, some 2]).length ∧ (1 : ℕ) ≤ 2 ∧
    (create_ascii_histogram [some (1:ℚ), some 2, some 2] 2 4
        = joinNL ((List.range 2).map (wideLine (dropna [some (1:ℚ), some 2, some 2]) 2 4))
      ∧ ∀ i, i < 2 →
        (0 < scaledLen 4 (maxNat (histogram (dropna [some (1:ℚ), some 2, some 2]) 2))
              ((histogram (dropna [some (1:ℚ), some 2, some 2]) 2).getD i 0) →
          wideBar 4 (maxNat (histogram (dropna [some (1:ℚ), some 2, some 2]) 2))
              ((histogram (dropna [some (1:ℚ), some 2, some 2]) 2).getD i 0)
            = String.mk (List.replicate
                (scaledLen 4 (maxNat (histogram (dropna [some (1:ℚ), some 2, some 2]) 2))
                  ((histogram (dropna [some (1:ℚ), some 2, some 2]) 2).getD i 0)) '█'))
        ∧ (scaledLen 4 (maxNat (histogram (dropna [some (1:ℚ), some 2, some 2]) 2))
              ((histogram (dropna [some (1:ℚ), some 2, some 2]) 2).getD i 0) = 0 →
            0 < (histogram (dropna [some (1:ℚ), some 2, some 2]) 2).getD i 0 →
            wideBar 4 (maxNat (histogram (dropna [some (1:ℚ), some 2, some 2]) 2))
              ((histogram (dropna [some (1:ℚ), some 2, some 2]) 2).getD i 0) = "▁")
        ∧ ((histogram (dropna [some (1:ℚ), some 2, some 2]) 2).getD i 0 = 0 →
            wideBar 4 (maxNat (histogram (dropna [some (1:ℚ), some 2, some 2]) 2))
              ((histogram (dropna [some (1:ℚ), some 2, some 2]) 2).getD i 0) = " ")) :=
  ⟨by decide, by decide,
    wide_bar_formula [some (1:ℚ), some 2, some 2] 2 4 (by decide) (by decide)⟩

end CSVVis

namespace CSVVis

/-- A loaded column: numeric dtype (analyzable) or non-numeric. -/
inductive ColData where
  | numeric (vals : List (Option ℚ))
  | text (vals : List (Option String))
  deriving Repr, DecidableEq

/-- Number of cells of a column. -/
def ColData.length : ColData → ℕ
  | .numeric vs => vs.length
  | .text vs => vs.length

/-- Whether the column has numeric dtype (`select_dtypes(include=["number"])`). -/
def ColData.isNumeric : ColData → Bool
  | .numeric _ => true
  | .text _ => false

/-- `notna().any()`: at least one present value. -/
def ColData.anyPresent : ColData → Bool
  | .numeric vs => vs.any (fun o => o.isSome)
  | .text vs => vs.any (fun o => o.isSome)

/-- A parsed data frame: ordered named columns. -/
structure Dataset where
  cols : List (String × ColData)
  deriving Repr, DecidableEq

/-- `len(self.data)`: the shared row count (length of the first column). -/
def Dataset.nrows (d : Dataset) : ℕ :=
  match d.cols with
  | [] => 0
  | c :: _ => c.2.length

/-- pandas `DataFrame.empty`: an axis of length zero. -/
def Dataset.isEmpty (d : Dataset) : Bool :=
  d.cols.isEmpty || d.nrows == 0

/-- Well-formedness: all columns share the row count (a pandas invariant). -/
def Dataset.wf (d : Dataset) : Prop :=
  ∀ c ∈ d.cols, c.2.length = d.nrows

/-- `self.data.columns`. -/
def Dataset.names (d : Dataset) : List String :=
  d.cols.map Prod.fst

/-- Column lookup `self.data[c]` (first match; CSV headers are distinct). -/
def Dataset.col? (d : Dataset) (c : String) : Option ColData :=
  (d.cols.find? (fun p => p.1 == c)).map Prod.snd

/-- Row indices chosen by `df.sample(n, random_state)`: a seed-determined
rotation of the row indices, then the first `n`.  This models pandas'
documented behaviour — a deterministic pseudorandom selection of `n` distinct
rows, a pure function of the frame and `random_state` — without reproducing
the Mersenne-Twister permutation, on which no claim depends. -/
def sampleIndices (seed n total : ℕ) : List ℕ :=
  (((List.range total).drop (seed % (total + 1)))
    ++ ((List.range total).take (seed % (total + 1)))).take n

/-- Restrict a column to the given row indices. -/
def ColData.takeRows : ColData → List ℕ → ColData
  | .numeric vs, ix => .numeric (ix.map (fun i => vs.getD i none))
  | .text vs, ix => .text (ix.map (fun i => vs.getD i none))

/-- `self.data.sample(n=n, random_state=seed)`. -/
def sampleRows (d : Dataset) (n seed : ℕ) : Dataset :=
  ⟨d.cols.map (fun c => (c.1, c.2.takeRows (sampleIndices seed n d.nrows)))⟩

/-- Terminal load failures of lines 59-100 visible to the parsed-data model. -/
inductive LoadError where
  | emptyData
  | negativeSample
  | noNumericColumns
  deriving Repr, DecidableEq

/-- Lines 67-71: `if self.sample_size and self.sample_size < len(self.data)`.
`None` and `0` are falsy in Python, so neither samples; a negative size
passes the guard and makes `df.sample` raise (`negativeSample`). -/
def sampleStep (d : Dataset) (ss : Option ℤ) (seed : ℕ) :
    Except LoadError Dataset :=
  match ss with
  | none => .ok d
  | some s =>
    if s ≠ 0 ∧ s < (d.nrows : ℤ) then
      if s < 0 then .error .negativeSample
      else .ok (sampleRows d s.toNat seed)
    else .ok d

/-- Names of numeric-dtype columns in dataset order (line 74). -/
def numericNames (d : Dataset) : List String :=
  (d.cols.filter (fun c => c.2.isNumeric)).map Prod.fst

/-- `self.data[c].notna().any()` (line 77). -/
def notnaAny (d : Dataset) (c : String) : Bool :=
  match d.col? c with
  | some cd => cd.anyPresent
  | none => false

/-- The column selection of lines 73-88: numeric columns, minus all-missing
ones, restricted to the requested columns present in the dataset. -/
def selectedColumns (d : Dataset) (columns : Option (List String)) :
    List String :=
  match columns with
  | none => (numericNames d).filter (notnaAny d)
  | some cs =>
    ((numericNames d).filter (notnaAny d)).filter
      (fun c => (cs.filter (fun c₂ => d.names.contains c₂)).contains c)

/-- The filter names warned about on line 85 (requested but absent). -/
def filterWarnings (d : Dataset) (columns : Option (List String)) :
    List String :=
  match columns with
  | none => []
  | some cs => cs.filter (fun c => !(d.names.contains c))

/-- `load_and_prepare_data` (lines 59-91) on already-parsed CSV contents:
emptiness check, optional sampling, numeric-column selection.  Returns the
prepared dataset, the selection, and the warned-about filter names; the
file-system failures of lines 93-96 live outside the parsed-data model. -/
def load_and_prepare_data (d : Dataset) (sample_size : Option ℤ)
    (columns : Option (List String)) (random_state : ℕ) :
    Except LoadError (Dataset × List String × List String) :=
  if d.isEmpty then .error .emptyData
  else
    match sampleStep d sample_size random_state with
    | .error e => .error e
    | .ok d₂ =>
      if (selectedColumns d₂ columns).isEmpty then .error .noNumericColumns
      else .ok (d₂, selectedColumns d₂ columns, filterWarnings d₂ columns)

/-- The sampled index list has exactly `n` entries when `n` rows exist. -/
theorem sampleIndices_length (seed n total : ℕ) (h : n ≤ total) :
    (sampleIndices seed n total).length = n := by
  unfold sampleIndices
  rw [List.length_take, List.length_append, List.length_drop,
    List.length_take, List.length_range]
  have hmod : seed % (total + 1) < total + 1 := Nat.mod_lt seed (by omega)
  omega

/-- Restricting a column keeps one cell per chosen index. -/
theorem takeRows_length (cd : ColData) (ix : List ℕ) :
    (cd.takeRows ix).length = ix.length := by
  cases cd <;> simp [ColData.takeRows, ColData.length]

/-- Sampling `n ≤ nrows` rows yields a dataset of exactly `n` rows. -/
theorem sampleRows_nrows (d : Dataset) (hcols : d.cols ≠ []) (n seed : ℕ)
    (hn : n ≤ d.nrows) : (sampleRows d n seed).nrows = n := by
  rcases hd : d.cols with _ | ⟨c, rest⟩
  · exact absurd hd hcols
  · have hgoal : (sampleRows d n seed).cols
        = (c.1, c.2.takeRows (sampleIndices seed n d.nrows))
          :: rest.map (fun p => (p.1, p.2.takeRows (sampleIndices seed n d.nrows))) := by
      show d.cols.map _ = _
      rw [hd, List.map_cons]
    unfold Dataset.nrows
    rw [hgoal]
    exact (takeRows_length _ _).trans (sampleIndices_length seed n d.nrows hn)

/-- The sampling branch taken: positive size below the row count. -/
theorem sampleStep_lt (d : Dataset) (s : ℤ) (seed : ℕ) (hs : 1 ≤ s)
    (hlt : s < (d.nrows : ℤ)) :
    sampleStep d (some s) seed = .ok (sampleRows d s.toNat seed) := by
  show (if s ≠ 0 ∧ s < (d.nrows : ℤ) then
      if s < 0 then Except.error LoadError.negativeSample
      else Except.ok (sampleRows d s.toNat seed)
    else Except.ok d) = Except.ok (sampleRows d s.toNat seed)
  rw [if_pos ⟨by omega, hlt⟩, if_neg (by omega)]

/-- The sampling branch skipped: size at least the row count. -/
theorem sampleStep_ge (d : Dataset) (s : ℤ) (seed : ℕ)
    (hge : (d.nrows : ℤ) ≤ s) : sampleStep d (some s) seed = .ok d := by
  show (if s ≠ 0 ∧ s < (d.nrows : ℤ) then
      if s < 0 then Except.error LoadError.negativeSample
      else Except.ok (sampleRows d s.toNat seed)
    else Except.ok d) = Except.ok d
  rw [if_neg]
  rintro ⟨h1, h2⟩
  omega

/-- After a successful sampling step, loading reduces to the
selection-emptiness test. -/
theorem load_eq_of_sampleStep (d : Dataset) (ss : Option ℤ)
    (cols : Option (List String)) (seed : ℕ) (hne : d.isEmpty = false)
    (d₂ : Dataset) (hstep : sampleStep d ss seed = .ok d₂) :
    load_and_prepare_data d ss cols seed
      = if (selectedColumns d₂ cols).isEmpty then .error .noNumericColumns
        else .ok (d₂, selectedColumns d₂ cols, filterWarnings d₂ cols) := by
  unfold load_and_prepare_data
  rw [if_neg (by simp [hne]), hstep]

/-- A non-empty dataset has at least one column. -/
theorem cols_ne_nil_of_not_isEmpty (d : Dataset) (hne : d.isEmpty = false) :
    d.cols ≠ [] := by
  intro hc0
  unfold Dataset.isEmpty at hne
  rw [hc0] at hne
  simp at hne

/-- Numeric column names are column names. -/
theorem mem_names_of_mem_numericNames (d : Dataset) (c : String)
    (h : c ∈ numericNames d) : c ∈ d.names := by
  unfold numericNames Dataset.names at *
  rcases List.mem_map.mp h with ⟨p, hp, rfl⟩
  exact List.mem_map.mpr ⟨p, (List.mem_filter.mp hp).1, rfl⟩

end CSVVis

namespace CSVVis

/-- C3: for a well-formed dataset, the non-missing count plus the missing
count reported by `calculate_statistics` for any numeric column equals the
dataset's total row count. -/
theorem count_add_missing (d : Dataset) (hwf : d.wf) (name : String)
    (vs : List (Option ℚ)) (hcol : d.col? name = some (ColData.numeric vs))
    (sqrtQ : ℚ → ℚ) (st : ColumnStatistics)
    (h : calculate_statistics sqrtQ vs name = some st) :
    st.count + st.missing = d.nrows := by
  have hlen : vs.length = d.nrows := by
    unfold Dataset.col? at hcol
    rcases hfind : d.cols.find? (fun p => p.1 == name) with _ | pr
    · rw [hfind] at hcol
      simp at hcol
    · rw [hfind] at hcol
      simp only [Option.map_some'] at hcol
      rw [Option.some.injEq] at hcol
      have hmem := List.mem_of_find?_eq_some hfind
      have hl := hwf pr hmem
      rw [hcol] at hl
      exact hl
  unfold calculate_statistics at h
  split at h
  · exact absurd h (by simp)
  · cases h
    show (dropna vs).length + missingCount vs = d.nrows
    rw [dropna_length_add_missingCount, hlen]

/-- The two-column dataset used by the C3 witness. -/
def dC3 : Dataset :=
  ⟨[("a", ColData.numeric [some 1, none]), ("b", ColData.text [some "t", none])]⟩

/-- Witness for C3 on a two-row dataset with one missing cell. -/
theorem count_add_missing_witness :
    dC3.wf ∧ ∃ st, calculate_statistics id [some (1:ℚ), none] "a" = some st ∧
      st.count + st.missing = dC3.nrows :=
  ⟨by unfold Dataset.wf; decide, _, rfl,
    count_add_missing dC3 (by unfold Dataset.wf; decide) "a" [some (1:ℚ), none]
      rfl id _ rfl⟩

/-- C5 (amended): for a sample size `s ≥ 1`, loading a non-empty dataset
samples down to exactly `s` rows when `s` is below the row count, and leaves
the dataset unchanged when `s` is at least the row count.  (A requested size
of `0` is falsy in Python and also leaves the dataset unchanged.) -/
theorem load_sampling (d : Dataset) (s : ℤ) (hs : 1 ≤ s)
    (cols : Option (List String)) (seed : ℕ) (hne : d.isEmpty = false) :
    (s < (d.nrows : ℤ) →
      ∀ d₂ sel warns,
        load_and_prepare_data d (some s) cols seed = .ok (d₂, sel, warns) →
        d₂.nrows = s.toNat)
    ∧ ((d.nrows : ℤ) ≤ s →
      ∀ d₂ sel warns,
        load_and_prepare_data d (some s) cols seed = .ok (d₂, sel, warns) →
        d₂ = d) := by
  constructor
  · intro hlt d₂ sel warns hload
    rw [load_eq_of_sampleStep d (some s) cols seed hne
      (sampleRows d s.toNat seed) (sampleStep_lt d s seed hs hlt)] at hload
    split at hload
    · exact absurd hload (by simp)
    · simp only [Except.ok.injEq, Prod.mk.injEq] at hload
      obtain ⟨h1, _, _⟩ := hload
      rw [← h1]
      exact sampleRows_nrows d (cols_ne_nil_of_not_isEmpty d hne) s.toNat seed
        (by omega)
  · intro hge d₂ sel warns hload
    rw [load_eq_of_sampleStep d (some s) cols seed hne
      d (sampleStep_ge d s seed hge)] at hload
    split at hload
    · exact absurd hload (by simp)
    · simp only [Except.ok.injEq, Prod.mk.injEq] at hload
      exact hload.1.symm

/-- The one-column, two-row dataset used for C5. -/
def dC5 : Dataset :=
  ⟨[("a", ColData.numeric [some 1, some 2])]⟩

/-- C5 counterexample: the requested sample size `0` is below the row count 2,
yet loading leaves the dataset at 2 rows (Python's `if self.sample_size`
treats `0` as false), so the result does not have `S = 0` rows. -/
theorem load_sampling_cex :
    (0:ℤ) < (dC5.nrows : ℤ)
    ∧ load_and_prepare_data dC5 (some 0) none 42 = .ok (dC5, ["a"], [])
    ∧ dC5.nrows ≠ 0 :=
  ⟨by decide, rfl, by decide⟩

/-- Witness for C5: sampling 1 row of the two-row dataset. -/
theorem load_sampling_witness :
    (1:ℤ) ≤ 1 ∧ dC5.isEmpty = false ∧ (1:ℤ) < (dC5.nrows : ℤ)
    ∧ load_and_prepare_data dC5 (some 1) none 42
        = .ok (⟨[("a", ColData.numeric [some (1:ℚ)])]⟩, ["a"], [])
    ∧ (⟨[("a", ColData.numeric [some (1:ℚ)])]⟩ : Dataset).nrows = (1:ℤ).toNat :=
  ⟨by decide, rfl, by decide, rfl,
    (load_sampling dC5 1 (by decide) none 42 rfl).1 (by decide) _ _ _ rfl⟩

/-- C9: after a successful sampling step on a non-empty dataset, the column
selection is the numeric-typed columns minus the all-missing ones, restricted
to the explicit filter when given; absent filter names land in the warning
list (loading still succeeds); and loading fails with `noNumericColumns`
exactly when the selection is empty. -/
theorem selection_characterization (d : Dataset) (ss : Option ℤ)
    (cols : Option (List String)) (seed : ℕ) (hne : d.isEmpty = false)
    (d₂ : Dataset) (hstep : sampleStep d ss seed = .ok d₂) :
    (load_and_prepare_data d ss cols seed = .error .noNumericColumns
      ↔ selectedColumns d₂ cols = [])
    ∧ (selectedColumns d₂ cols ≠ [] →
        load_and_prepare_data d ss cols seed
          = .ok (d₂, selectedColumns d₂ cols, filterWarnings d₂ cols))
    ∧ (∀ c, c ∈ selectedColumns d₂ cols ↔
        c ∈ numericNames d₂ ∧ notnaAny d₂ c = true
          ∧ ∀ cs, cols = some cs → c ∈ cs)
    ∧ (∀ cs, cols = some cs → ∀ c ∈ cs, c ∉ d₂.names →
        c ∈ filterWarnings d₂ cols) := by
  have hload := load_eq_of_sampleStep d ss cols seed hne d₂ hstep
  refine ⟨?_, ?_, ?_, ?_⟩
  · rw [hload]
    by_cases hsel : selectedColumns d₂ cols = []
    · simp [hsel]
    · have hb : (selectedColumns d₂ cols).isEmpty = false := by
        simpa [List.isEmpty_iff] using hsel
      simp [hb, hsel]
  · intro hsel
    rw [hload, if_neg]
    simpa [List.isEmpty_iff] using hsel
  · intro c
    unfold selectedColumns
    cases cols with
    | none =>
      simp [List.mem_filter]
    | some cs =>
      constructor
      · intro hc
        have h1 := List.mem_filter.mp hc
        have h2 := List.mem_filter.mp h1.1
        refine ⟨h2.1, h2.2, ?_⟩
        intro cs₂ hcs₂
        rw [Option.some.injEq] at hcs₂
        subst hcs₂
        have h3 : c ∈ cs.filter (fun c₂ => d₂.names.contains c₂) := by
          simpa using h1.2
        exact (List.mem_filter.mp h3).1
      · rintro ⟨hnum, hna, hcs⟩
        apply List.mem_filter.mpr
        refine ⟨List.mem_filter.mpr ⟨hnum, hna⟩, ?_⟩
        have hc2 : c ∈ cs.filter (fun c₂ => d₂.names.contains c₂) := by
          apply List.mem_filter.mpr
          refine ⟨hcs cs rfl, ?_⟩
          simpa using mem_names_of_mem_numericNames d₂ c hnum
        simpa using hc2
  · intro cs hcs c hc hnotin
    subst hcs
    unfold filterWarnings
    apply List.mem_filter.mpr
    refine ⟨hc, ?_⟩
    simpa using hnotin

/-- The three-column dataset used by the C9 witness: a usable numeric column,
a text column, and an all-missing numeric column. -/
def dC9 : Dataset :=
  ⟨[("a", ColData.numeric [some 1]), ("b", ColData.text [some "t"]),
    ("z", ColData.numeric [none])]⟩

/-- Witness for C9 with the filter `["a", "q"]` (`"q"` absent). -/
theorem selection_characterization_witness :
    dC9.isEmpty = false ∧ sampleStep dC9 none 42 = .ok dC9 ∧
    ((load_and_prepare_data dC9 none (some ["a", "q"]) 42
        = .error .noNumericColumns
      ↔ selectedColumns dC9 (some ["a", "q"]) = [])
    ∧ (selectedColumns dC9 (some ["a", "q"]) ≠ [] →
        load_and_prepare_data dC9 none (some ["a", "q"]) 42
          = .ok (dC9, selectedColumns dC9 (some ["a", "q"]),
              filterWarnings dC9 (some ["a", "q"])))
    ∧ (∀ c, c ∈ selectedColumns dC9 (some ["a", "q"]) ↔
        c ∈ numericNames dC9 ∧ notnaAny dC9 c = true
          ∧ ∀ cs, some ["a", "q"] = some cs → c ∈ cs)
    ∧ (∀ cs, (some ["a", "q"] : Option (List String)) = some cs →
        ∀ c ∈ cs, c ∉ dC9.names → c ∈ filterWarnings dC9 (some ["a", "q"]))) :=
  ⟨rfl, rfl,
    selection_characterization dC9 none (some ["a", "q"]) 42 rfl dC9 rfl⟩

/-- C10: loading is deterministic — equal parsed contents, sample size,
column filter and random state give identical results (dataset, selection
and warnings).  pandas' `df.sample` with a fixed `random_state` is a pure
function of its inputs, which the embedding reflects. -/
theorem load_deterministic (d d₂ : Dataset) (ss ss₂ : Option ℤ)
    (cols cols₂ : Option (List String)) (seed seed₂ : ℕ)
    (hd : d = d₂) (hss : ss = ss₂) (hc : cols = cols₂) (hseed : seed = seed₂) :
    load_and_prepare_data d ss cols seed
      = load_and_prepare_data d₂ ss₂ cols₂ seed₂ := by
  subst hd
  subst hss
  subst hc
  subst hseed
  rfl

/-- The dataset used by the C10 witness. -/
def dC10 : Dataset :=
  ⟨[("a", ColData.numeric [some 1, some 2, none])]⟩

/-- Witness for C10 at concrete arguments. -/
theorem load_deterministic_witness :
    load_and_prepare_data dC10 (some 1) (some ["a"]) 42
      = load_and_prepare_data dC10 (some 1) (some ["a"]) 42 :=
  load_deterministic dC10 dC10 (some 1) (some 1) (some ["a"]) (some ["a"])
    42 42 rfl rfl rfl rfl

end CSVVis
